import Mathlib

/-!
Shallow embedding of the neograph synchronization engine
(`src/neograph/nx_to_neo.py`) and verification of its specification.

Modelling conventions:
* Python strings are Lean `String`s; `str.replace(c, '')` for a one-character
  pattern removes every occurrence of that character, embedded as the
  recursive `pyRemoveChar`.
* Python's variadic `sanitize(*strings)` is embedded as a function on a list
  of strings returning either a bare string (one argument) or the list of
  results (otherwise), mirroring the `len(sanitized) == 1` check.
* Property dictionaries are association lists `List (String × PropVal)`;
  a `PropVal` is either a Python `str` or a non-string value carried by its
  `str(...)` rendering (the form the f-string interpolates).
* The neo4j driver is replaced by an environment `env : String → Bool`
  telling whether `tx.run(query)` succeeds (`true`) or raises (`false`).
  A write transaction is the list of queries actually passed to `tx.run`
  before the first raise; a raise aborts the enclosing transaction function
  and propagates out of `store_in_neo`, so the engine is modelled as
  returning the list of transactions it started together with a success
  flag.
* Definitions named after the source embed the source; definitions whose
  doc comment says "claim-side" or "spec-side" transcribe the wording of the
  specification for comparison with the source.
-/

/-- Removal of every occurrence of the character `c`, the embedding of
Python's `string.replace(c, '')` for a one-character pattern. -/
def pyRemoveChar (c : Char) : List Char → List Char
  | [] => []
  | x :: xs => if x = c then pyRemoveChar c xs else x :: pyRemoveChar c xs

/-- Embedding of the body of `sanitize` applied to one string: the chained
`.replace('`','').replace(';','').replace('/','').replace('(','')
.replace(')','').replace('{','').replace('}','')` from
`nx_to_neo.py`, lines 356-359. -/
def sanitizeStr (s : String) : String :=
  ⟨pyRemoveChar '\x7d' (pyRemoveChar '\x7b' (pyRemoveChar ')' (pyRemoveChar '('
    (pyRemoveChar '/' (pyRemoveChar ';' (pyRemoveChar '\x60' s.data))))))⟩

/-- Claim-side: the character set the specification says `sanitize` removes —
backtick, semicolon, forward slash, parentheses and braces. -/
def forbiddenChars : List Char := ['\x60', ';', '/', '(', ')', '\x7b', '\x7d']

/-- Result shape of the variadic `sanitize`: a bare string or a tuple,
the tuple modelled as the list of its components in order. -/
inductive SanitizeResult where
  | one (s : String)
  | many (ss : List String)
deriving DecidableEq

/-- Embedding of the variadic `sanitize(*strings)` (lines 343-366): sanitize
each argument, then return the single result bare when there is exactly one,
otherwise the whole tuple. -/
def sanitize (strings : List String) : SanitizeResult :=
  match strings.map sanitizeStr with
  | [s] => SanitizeResult.one s
  | l => SanitizeResult.many l

/-- Value of an extra property in a node or edge attribute dictionary:
either a Python `str`, or a non-string value carried by the text that
`f"{value}"` interpolates for it (its `str(...)` rendering). -/
inductive PropVal where
  | str (s : String)
  | other (rendering : String)
deriving DecidableEq

/-- One iteration of the `for key, value in props.items()` loop of
`NeoGraph.__unpack_props` (lines 246-250): append `, key:"value"`, the key
sanitized, a string value sanitized, a non-string value interpolated as is —
both branches of the source wrap the value in double quotes. -/
def unpackStep (acc : String) (kv : String × PropVal) : String :=
  match kv.2 with
  | PropVal.str v => acc ++ ", " ++ sanitizeStr kv.1 ++ ":\"" ++ sanitizeStr v ++ "\""
  | PropVal.other r => acc ++ ", " ++ sanitizeStr kv.1 ++ ":\"" ++ r ++ "\""

/-- Embedding of `NeoGraph.__unpack_props` (lines 233-251): fold the property
dictionary through `unpackStep` starting from the empty string, then strip
the first character (the Python `[1:]`). -/
def unpack_props (props : List (String × PropVal)) : String :=
  ⟨(props.foldl unpackStep "").data.drop 1⟩

/-- A node of the in-memory graph: its dictionary key (`name`), the
`['data']['label']` entry, and the remaining `['data']` entries after
`pop('label')`. -/
structure GraphNode where
  name : String
  label : String
  props : List (String × PropVal)
deriving DecidableEq

/-- An edge of the in-memory graph: ordered endpoint names, the `label`
attribute, and the remaining attributes after `pop('label')`. -/
structure GraphEdge where
  fromName : String
  toName : String
  label : String
  props : List (String × PropVal)
deriving DecidableEq

/-- The in-memory `NeoGraph`: node list (dictionary iteration order) and
edge list. -/
structure NeoGraph where
  nodes : List GraphNode
  edges : List GraphEdge
deriving DecidableEq

/-- Label lookup `self.nodes[name]['data']['label']`, `none` when the name
is absent (Python raises `KeyError`). -/
def lookupLabel (g : NeoGraph) (name : String) : Option String :=
  (g.nodes.find? (fun n => n.name == name)).map (fun n => n.label)

/-- The node-upsert statement built inside `NeoGraph.__add_new_nodes`
(lines 144-169) for one node: encode the extra properties, sanitize label
and name, and interpolate them into the MERGE / ON CREATE / SET / RETURN
f-string of lines 163-169. -/
def nodeQueryOf (n : GraphNode) : String :=
  let other_props := unpack_props n.props
  let node_label := sanitizeStr n.label
  let node_name := sanitizeStr n.name
  "MERGE (n: " ++ node_label ++ " \x7bname: \"" ++ node_name ++ "\"\x7d)\n" ++
  "ON CREATE\n" ++
  "    SET n.created = timestamp()\n" ++
  "SET n += \x7b" ++ other_props ++ "\x7d\n" ++
  "RETURN n, n.created"

/-- The node-upsert statements issued by `__add_new_nodes`, in node order. -/
def nodeQueries (g : NeoGraph) : List String := g.nodes.map nodeQueryOf

/-- The edge-upsert statement built inside `NeoGraph.__add_new_edges`
(lines 196-221) for one edge: look up both endpoint labels in the node set,
encode the extra properties, sanitize the five identity strings, and
interpolate them into the f-string of lines 213-221; `none` when an endpoint
lookup raises `KeyError`. -/
def edgeQueryOf (g : NeoGraph) (e : GraphEdge) : Option String :=
  match lookupLabel g e.fromName, lookupLabel g e.toName with
  | some fl, some tl =>
    let props := unpack_props e.props
    let from_node_name := sanitizeStr e.fromName
    let from_node_label := sanitizeStr fl
    let to_node_name := sanitizeStr e.toName
    let to_node_label := sanitizeStr tl
    let edge_label := sanitizeStr e.label
    some ("MERGE (n:" ++ from_node_label ++ " \x7bname: \"" ++ from_node_name ++ "\" \x7d)\n" ++
      "MERGE (n2:" ++ to_node_label ++ " \x7bname: \"" ++ to_node_name ++ "\" \x7d)\n" ++
      "MERGE (n)-[e:" ++ edge_label ++ "]->(n2)\n" ++
      "ON CREATE\n" ++
      "    SET e.created = timestamp()\n" ++
      "SET e += \x7b" ++ props ++ "\x7d\n" ++
      "RETURN e")
  | _, _ => none

/-- One write transaction running a list of statements through `tx.run`:
the statements attempted in order up to and including the first failing one,
plus whether the transaction function returned normally. -/
def runTx (env : String → Bool) : List String → List String × Bool
  | [] => ([], true)
  | q :: rest =>
    if env q then
      let r := runTx env rest
      (q :: r.1, r.2)
    else ([q], false)

/-- The write transaction of `__add_new_edges`: for each edge the statement
is first built (a failed endpoint lookup raises before any `tx.run`), then
run; the first raise aborts the rest of the loop. -/
def runEdgesTx (env : String → Bool) (g : NeoGraph) : List GraphEdge → List String × Bool
  | [] => ([], true)
  | e :: rest =>
    match edgeQueryOf g e with
    | none => ([], false)
    | some q =>
      if env q then
        let r := runEdgesTx env g rest
        (q :: r.1, r.2)
      else ([q], false)

/-- Outcome of a `store_in_neo` pass: the write transactions started, each
as the list of statements attempted inside it, and whether the pass returned
without raising. -/
structure StoreResult where
  txs : List (List String)
  ok : Bool
deriving DecidableEq

/-- Embedding of `NeoGraph.store_in_neo` (lines 61-71): one session, one
write transaction over all nodes, then — only if it returned — one write
transaction over all edges; an exception in either propagates out. -/
def store_in_neo (env : String → Bool) (g : NeoGraph) : StoreResult :=
  let r1 := runTx env (nodeQueries g)
  if r1.2 then
    let r2 := runEdgesTx env g g.edges
    ⟨[r1.1, r2.1], r2.2⟩
  else ⟨[r1.1], false⟩

/-- Outcome of a `create_constraint` call: whether a session was opened,
the statements run in it, and the `ValueError` message if one was raised. -/
structure CCResult where
  sessionOpened : Bool
  queries : List String
  error : Option String
deriving DecidableEq

/-- The statement built by `NeoGraph.__create_constraint` (lines 304-308)
from the already-sanitized label and property, the `on` argument, and the
pattern and requirement prepared by the wrapper. -/
def constraintQuery (label prop onArg pattern requirement : String) : String :=
  "CREATE CONSTRAINT " ++ label ++ "_" ++ onArg ++ "_" ++ prop ++ "_unique IF NOT EXISTS\n" ++
  "FOR " ++ pattern ++ "\n" ++
  "REQUIRE x." ++ prop ++ " " ++ requirement

/-- Embedding of `NeoGraph.create_constraint` (lines 255-290); `onArg` embeds
the Python parameter `on` (a reserved token in Lean). Sanitize label and
property; select the pattern from `onArg`, raising `ValueError` otherwise;
select the requirement from `constraint_type`, raising otherwise; only then
open a session and run the statement of `__create_constraint`. -/
def create_constraint (label prop onArg constraint_type : String) : CCResult :=
  let l := sanitizeStr label
  let p := sanitizeStr prop
  match (if onArg = "node" then some ("(x:" ++ l ++ ")")
         else if onArg = "relationship" then some ("()-[x:" ++ l ++ "]-()")
         else none) with
  | none => ⟨false, [], some "Argument \x7bon\x7d must be either \x27node\x27 or \x27relationship\x27"⟩
  | some pattern =>
    match (if constraint_type = "unique" then some "IS UNIQUE"
           else if constraint_type = "exist" then some "IS NOT NULL"
           else none) with
    | none => ⟨false, [], some "Argument \x7bconstraint_type\x7d must be either \x27unique\x27 or \x27exist\x27"⟩
    | some requirement => ⟨true, [constraintQuery l p onArg pattern requirement], none⟩

/-- Spec-side: the MERGE line of the node upsert — label embedded as a bare
unquoted token, `name` property equal to the name as a double-quoted
literal. -/
def mergeNodeLine (label name : String) : String :=
  "MERGE (n: " ++ label ++ " \x7bname: \"" ++ name ++ "\"\x7d)\n"

/-- Spec-side: the ON CREATE clause setting the creation timestamp only on
creation of the node. -/
def onCreateNodeTimestampLines : String :=
  "ON CREATE\n    SET n.created = timestamp()\n"

/-- Spec-side: the unconditional property-merge clause of the node upsert. -/
def setPlusNodeLine (props : String) : String :=
  "SET n += \x7b" ++ props ++ "\x7d\n"

/-- Spec-side: the RETURN of the node handle and its creation timestamp. -/
def returnNodeLine : String := "RETURN n, n.created"

/-- Spec-side: the node-upsert statement as the specification words it —
MERGE pattern, creation-only timestamp, unconditional property merge,
RETURN of handle and timestamp. -/
def nodeQuerySpec (label name props : String) : String :=
  mergeNodeLine label name ++ onCreateNodeTimestampLines ++
  setPlusNodeLine props ++ returnNodeLine

/-- Spec-side: the MERGE line matching-or-creating the from-node by label
and name. -/
def mergeFromNodeLine (fl fn : String) : String :=
  "MERGE (n:" ++ fl ++ " \x7bname: \"" ++ fn ++ "\" \x7d)\n"

/-- Spec-side: the MERGE line matching-or-creating the to-node by label and
name. -/
def mergeToNodeLine (tl tn : String) : String :=
  "MERGE (n2:" ++ tl ++ " \x7bname: \"" ++ tn ++ "\" \x7d)\n"

/-- Spec-side: the MERGE line matching-or-creating a directed relationship
of the given label from the first node to the second. -/
def mergeDirectedRelLine (el : String) : String :=
  "MERGE (n)-[e:" ++ el ++ "]->(n2)\n"

/-- Spec-side: the ON CREATE clause setting the creation timestamp only on
creation of the relationship. -/
def onCreateEdgeTimestampLines : String :=
  "ON CREATE\n    SET e.created = timestamp()\n"

/-- Spec-side: the unconditional property-merge clause of the edge upsert. -/
def setPlusEdgeLine (props : String) : String :=
  "SET e += \x7b" ++ props ++ "\x7d\n"

/-- Spec-side: the RETURN of the relationship handle. -/
def returnEdgeLine : String := "RETURN e"

/-- Spec-side: the edge-upsert statement as the specification words it. -/
def edgeQuerySpec (fl fn tl tn el props : String) : String :=
  mergeFromNodeLine fl fn ++ mergeToNodeLine tl tn ++ mergeDirectedRelLine el ++
  onCreateEdgeTimestampLines ++ setPlusEdgeLine props ++ returnEdgeLine

/-- Spec-side: the derived constraint name combining label, target kind and
property, as interpolated by `__create_constraint` (deterministic because it
is a function of exactly these three inputs). -/
def constraintName (label onArg prop : String) : String :=
  label ++ "_" ++ onArg ++ "_" ++ prop ++ "_unique"

/-- Claim-side: the property encoder as claim C5 words it — sanitize each
key; sanitize and double-quote string values; embed the literal form of
non-string values unquoted; join the entries with `, `. -/
def unpackPropsClaimed (props : List (String × PropVal)) : String :=
  String.intercalate ", " (props.map (fun kv =>
    match kv.2 with
    | PropVal.str v => sanitizeStr kv.1 ++ ":\"" ++ sanitizeStr v ++ "\""
    | PropVal.other r => sanitizeStr kv.1 ++ ":" ++ r))

/-- One encoded `key:"value"` entry as the source actually produces it:
sanitized key, string values sanitized, and the value double-quoted in both
branches. -/
def propEntryAmended (kv : String × PropVal) : String :=
  match kv.2 with
  | PropVal.str v => sanitizeStr kv.1 ++ ":\"" ++ sanitizeStr v ++ "\""
  | PropVal.other r => sanitizeStr kv.1 ++ ":\"" ++ r ++ "\""

/-- Helper: entries each prefixed by `, ` and concatenated. -/
def joinCS : List String → String
  | [] => ""
  | s :: rest => ", " ++ s ++ joinCS rest

theorem pyRemoveChar_eq_filter (c : Char) (l : List Char) :
    pyRemoveChar c l = l.filter (fun x => x != c) := by
  induction l with
  | nil => rfl
  | cons x xs ih =>
    by_cases h : x = c <;> simp [pyRemoveChar, h, ih]

theorem sanitizeStr_data (s : String) :
    (sanitizeStr s).data = s.data.filter (fun c => decide (c ∉ forbiddenChars)) := by
  show (pyRemoveChar '\x7d' (pyRemoveChar '\x7b' (pyRemoveChar ')' (pyRemoveChar '('
    (pyRemoveChar '/' (pyRemoveChar ';' (pyRemoveChar '\x60' s.data))))))) = _
  simp only [pyRemoveChar_eq_filter, List.filter_filter]
  apply List.filter_congr
  intro c _
  rw [Bool.eq_iff_iff]
  simp [forbiddenChars]
  tauto

/-- C2: `sanitize` on one string returns the string with every occurrence of
backtick, semicolon, slash, parentheses and braces removed and every other
character (spaces and hyphens included) untouched, in order; it is total, maps
the empty string to itself, and maps `Per`son;/(){}` to `Person`. -/
theorem sanitize_removes_forbidden :
    (∀ s : String,
      (sanitizeStr s).data = s.data.filter (fun c => decide (c ∉ forbiddenChars))) ∧
    sanitizeStr "" = "" ∧
    sanitizeStr "Per\x60son;/()\x7b\x7d" = "Person" ∧
    (' ' ∉ forbiddenChars ∧ '-' ∉ forbiddenChars) := by
  refine ⟨sanitizeStr_data, rfl, ?_, by decide⟩
  decide

/-- C10: the return shape of `sanitize` depends on its arity — exactly one
argument yields the bare sanitized string, two or more yield the tuple of the
sanitized arguments in argument order. -/
theorem sanitize_arity_shape :
    (∀ s : String, sanitize [s] = SanitizeResult.one (sanitizeStr s)) ∧
    (∀ l : List String, 2 ≤ l.length →
      sanitize l = SanitizeResult.many (l.map sanitizeStr)) := by
  constructor
  · intro s
    rfl
  · intro l h
    match l with
    | [] => simp at h
    | [a] => simp at h
    | a :: b :: rest => rfl

/-- Witness for C10 at concrete inputs of arity one and two. -/
theorem sanitize_arity_shape_witness :
    sanitize ["ab;"] = SanitizeResult.one "ab" ∧
    sanitize ["a(", "b)"] = SanitizeResult.many ["a", "b"] := by
  constructor
  · have h := sanitize_arity_shape.1 "ab;"
    rw [h]
    rfl
  · have h := sanitize_arity_shape.2 ["a(", "b)"] (by decide)
    rw [h]
    rfl

theorem nodeQueryOf_parts (n : GraphNode) :
    nodeQueryOf n =
      mergeNodeLine (sanitizeStr n.label) (sanitizeStr n.name) ++
      onCreateNodeTimestampLines ++
      setPlusNodeLine (unpack_props n.props) ++
      returnNodeLine := by
  have hoc : ("ON CREATE\n" : String) ++ "    SET n.created = timestamp()\n" =
      "ON CREATE\n    SET n.created = timestamp()\n" := by decide
  simp only [nodeQueryOf, mergeNodeLine, onCreateNodeTimestampLines,
    setPlusNodeLine, returnNodeLine, ← hoc, String.append_assoc]

/-- C4: the node-upsert statement built during synchronize is the MERGE
pattern on the sanitized bare label and double-quoted sanitized name,
followed by the creation-only timestamp clause, the unconditional
`SET n += {...}` merge of the encoded extra properties, and the RETURN of
the node handle and its creation timestamp. -/
theorem node_upsert_statement_shape (n : GraphNode) :
    nodeQueryOf n =
      nodeQuerySpec (sanitizeStr n.label) (sanitizeStr n.name)
        (unpack_props n.props) :=
  nodeQueryOf_parts n

/-- C3: for every edge whose endpoint labels resolve, the edge-upsert
statement merges the from-node by sanitized label and name, merges the
to-node by sanitized label and name, merges a directed relationship of the
sanitized edge label from the first to the second, sets the creation
timestamp only on creation, and unconditionally merges the encoded extra
properties. -/
theorem edge_upsert_statement_shape (g : NeoGraph) (e : GraphEdge)
    (fl tl : String)
    (h1 : lookupLabel g e.fromName = some fl)
    (h2 : lookupLabel g e.toName = some tl) :
    edgeQueryOf g e =
      some (edgeQuerySpec (sanitizeStr fl) (sanitizeStr e.fromName)
        (sanitizeStr tl) (sanitizeStr e.toName) (sanitizeStr e.label)
        (unpack_props e.props)) := by
  unfold edgeQueryOf
  rw [h1, h2]
  have hoc : ("ON CREATE\n" : String) ++ "    SET e.created = timestamp()\n" =
      "ON CREATE\n    SET e.created = timestamp()\n" := by decide
  simp only [edgeQuerySpec, mergeFromNodeLine, mergeToNodeLine,
    mergeDirectedRelLine, onCreateEdgeTimestampLines, setPlusEdgeLine,
    returnEdgeLine, ← hoc, String.append_assoc]

/-- Witness for C3: a concrete two-node graph with one edge. -/
theorem edge_upsert_statement_shape_witness :
    lookupLabel ⟨[⟨"Alice", "Person", []⟩, ⟨"Bob", "Person", []⟩], [⟨"Alice", "Bob", "KNOWS", []⟩]⟩ "Alice" = some "Person" ∧
    edgeQueryOf ⟨[⟨"Alice", "Person", []⟩, ⟨"Bob", "Person", []⟩], [⟨"Alice", "Bob", "KNOWS", []⟩]⟩ ⟨"Alice", "Bob", "KNOWS", []⟩ =
      some (edgeQuerySpec "Person" "Alice" "Person" "Bob" "KNOWS" "") := by
  refine ⟨rfl, ?_⟩
  have h := edge_upsert_statement_shape
    ⟨[⟨"Alice", "Person", []⟩, ⟨"Bob", "Person", []⟩], [⟨"Alice", "Bob", "KNOWS", []⟩]⟩
    ⟨"Alice", "Bob", "KNOWS", []⟩ "Person" "Person" rfl rfl
  rw [h]
  decide

theorem unpackStep_eq (acc : String) (kv : String × PropVal) :
    unpackStep acc kv = acc ++ (", " ++ propEntryAmended kv) := by
  obtain ⟨k, v⟩ := kv
  cases v <;> simp [unpackStep, propEntryAmended, String.append_assoc]

theorem foldl_unpackStep (props : List (String × PropVal)) :
    ∀ acc : String,
      props.foldl unpackStep acc = acc ++ joinCS (props.map propEntryAmended) := by
  induction props with
  | nil => intro acc; simp [joinCS, String.append_empty]
  | cons p ps ih =>
    intro acc
    simp only [List.foldl_cons, List.map_cons, joinCS, ih, unpackStep_eq,
      String.append_assoc]

theorem intercalate_go_joinCS (as : List String) :
    ∀ a : String, String.intercalate.go a ", " as = a ++ joinCS as := by
  induction as with
  | nil => intro a; simp [String.intercalate.go, joinCS, String.append_empty]
  | cons b bs ih =>
    intro a
    rw [String.intercalate.go, ih, joinCS]
    simp [String.append_assoc]

theorem intercalate_comma_cons (a : String) (as : List String) :
    String.intercalate ", " (a :: as) = a ++ joinCS as :=
  intercalate_go_joinCS as a

/-- Counterexample to C5: for a non-string property value the source embeds
the value double-quoted, not as a bare literal, and the fragment carries a
leading space, so the encoder differs from the claimed one on the mapping
`age ↦ 30`. -/
theorem unpack_props_nonstring_quoted_cex :
    unpack_props [("age", PropVal.other "30")] = " age:\"30\"" ∧
    unpackPropsClaimed [("age", PropVal.other "30")] = "age:30" ∧
    unpack_props [("age", PropVal.other "30")] ≠
      unpackPropsClaimed [("age", PropVal.other "30")] := by
  refine ⟨by decide, by decide, by decide⟩

/-- C5 amended: for every non-empty property mapping the encoder sanitizes
each key, sanitizes and double-quotes string values, double-quotes (without
sanitizing) the literal form of non-string values, and joins the entries
with `, ` behind a single leading space left by stripping the first comma. -/
theorem unpack_props_amended (props : List (String × PropVal))
    (h : props ≠ []) :
    unpack_props props =
      " " ++ String.intercalate ", " (props.map propEntryAmended) := by
  match props with
  | [] => exact absurd rfl h
  | p :: ps =>
    show (⟨(((p :: ps).foldl unpackStep "").data.drop 1)⟩ : String) = _
    rw [foldl_unpackStep, List.map_cons, intercalate_comma_cons]
    have hj : ("" : String) ++ joinCS ((p :: ps).map propEntryAmended) =
        ", " ++ (propEntryAmended p ++ joinCS (ps.map propEntryAmended)) := by
      simp [joinCS, String.append_assoc]
    rw [List.map_cons] at hj
    rw [hj]
    rfl

/-- Witness for C5 amended at a one-entry mapping. -/
theorem unpack_props_amended_witness :
    unpack_props [("city", PropVal.str "LA")] = " city:\"LA\"" ∧
    ([("city", PropVal.str "LA")] : List (String × PropVal)) ≠ [] := by
  refine ⟨?_, by decide⟩
  have h := unpack_props_amended [("city", PropVal.str "LA")] (by decide)
  rw [h]
  decide

set_option maxRecDepth 4000 in
/-- Counterexample to C6: on the node `Alice:Person` with an empty property
mapping the generated statement does not omit the property-merge clause —
it still contains `SET n += {}`. -/
theorem node_statement_keeps_set_clause_cex :
    unpack_props ([] : List (String × PropVal)) = "" ∧
    nodeQueryOf ⟨"Alice", "Person", []⟩ =
      "MERGE (n: Person \x7bname: \"Alice\"\x7d)\nON CREATE\n    SET n.created = timestamp()\nSET n += \x7b\x7d\nRETURN n, n.created" ∧
    ("SET n += \x7b\x7d").data <:+: (nodeQueryOf ⟨"Alice", "Person", []⟩).data := by
  refine ⟨rfl, by decide, by decide⟩

/-- C6 amended: encoding an empty property mapping yields an empty fragment,
and the generated node-upsert statement keeps the property-merge clause with
an empty map — `SET n += {}` — rather than omitting it. -/
theorem node_statement_set_clause_amended (name label : String) :
    unpack_props ([] : List (String × PropVal)) = "" ∧
    ("SET n += \x7b\x7d\n").data <:+: (nodeQueryOf ⟨name, label, []⟩).data := by
  refine ⟨rfl, ?_⟩
  refine ⟨(mergeNodeLine (sanitizeStr label) (sanitizeStr name) ++
    onCreateNodeTimestampLines).data, returnNodeLine.data, ?_⟩
  have hp : nodeQueryOf ⟨name, label, []⟩ =
      mergeNodeLine (sanitizeStr label) (sanitizeStr name) ++
      onCreateNodeTimestampLines ++ setPlusNodeLine (unpack_props []) ++
      returnNodeLine := nodeQueryOf_parts ⟨name, label, []⟩
  rw [hp]
  have hsp : setPlusNodeLine (unpack_props []) = "SET n += \x7b\x7d\n" := by decide
  rw [hsp]
  simp [String.data_append, List.append_assoc]

theorem runTx_fst_append (env : String → Bool) (qs : List String) :
    ∃ rest, (runTx env qs).1 ++ rest = qs := by
  induction qs with
  | nil => exact ⟨[], rfl⟩
  | cons q rest ih =>
    by_cases h : env q = true
    · obtain ⟨r, hr⟩ := ih
      refine ⟨r, ?_⟩
      simp [runTx, h, hr]
    · refine ⟨rest, ?_⟩
      simp [runTx, h]

theorem runTx_ok_full (env : String → Bool) (qs : List String)
    (h : (runTx env qs).2 = true) : (runTx env qs).1 = qs := by
  induction qs with
  | nil => rfl
  | cons q rest ih =>
    by_cases hq : env q = true
    · simp only [runTx, hq, if_true] at h ⊢
      simp [ih h]
    · simp [runTx, hq] at h

theorem runTx_fail_shape (env : String → Bool) (qs : List String)
    (h : (runTx env qs).2 = false) :
    ∃ pre q, (runTx env qs).1 = pre ++ [q] ∧
      (∀ p ∈ pre, env p = true) ∧ env q = false := by
  induction qs with
  | nil => simp [runTx] at h
  | cons q rest ih =>
    by_cases hq : env q = true
    · simp only [runTx, hq, if_true] at h ⊢
      obtain ⟨pre, qq, h1, h2, h3⟩ := ih h
      refine ⟨q :: pre, qq, by simp [h1], ?_, h3⟩
      intro p hp
      rcases List.mem_cons.mp hp with hp | hp
      · rw [hp]; exact hq
      · exact h2 p hp
    · refine ⟨[], q, by simp [runTx, hq], by simp, by simpa using hq⟩

/-- C7: during a `store_in_neo` pass no edge-upsert statement is ever run
before every node-upsert statement has run — the first transaction attempts
only node upserts (an initial segment of them), and an edge transaction
exists only when the node transaction ran all of them. -/
theorem store_nodes_before_edges (g : NeoGraph) (env : String → Bool) :
    ∃ nt, nt <+: nodeQueries g ∧
      ((store_in_neo env g).txs = [nt] ∨
        (nt = nodeQueries g ∧ ∃ et, (store_in_neo env g).txs = [nt, et])) := by
  by_cases hok : (runTx env (nodeQueries g)).2 = true
  · refine ⟨nodeQueries g, ⟨[], by simp⟩,
      Or.inr ⟨rfl, (runEdgesTx env g g.edges).1, ?_⟩⟩
    simp [store_in_neo, hok, runTx_ok_full env _ hok]
  · refine ⟨(runTx env (nodeQueries g)).1, ?_, Or.inl ?_⟩
    · obtain ⟨r, hr⟩ := runTx_fst_append env (nodeQueries g)
      exact ⟨r, hr⟩
    · simp [store_in_neo, hok]

/-- Counterexample to C1: on the two-node graph `A:P`, `B:P` the engine
bundles both node upserts into a single write transaction (the claim wants
one logical write operation per entity), and when the first node's upsert
fails the second is never attempted and the pass reports a raise instead of
a collected per-entity failure. -/
theorem store_in_neo_single_tx_cex :
    (store_in_neo (fun _ => true) ⟨[⟨"A", "P", []⟩, ⟨"B", "P", []⟩], []⟩).txs =
      [[nodeQueryOf ⟨"A", "P", []⟩, nodeQueryOf ⟨"B", "P", []⟩], []] ∧
    (store_in_neo (fun q => !(q == nodeQueryOf ⟨"A", "P", []⟩))
        ⟨[⟨"A", "P", []⟩, ⟨"B", "P", []⟩], []⟩).txs =
      [[nodeQueryOf ⟨"A", "P", []⟩]] ∧
    (store_in_neo (fun q => !(q == nodeQueryOf ⟨"A", "P", []⟩))
        ⟨[⟨"A", "P", []⟩, ⟨"B", "P", []⟩], []⟩).ok = false ∧
    nodeQueryOf ⟨"B", "P", []⟩ ∉
      ((store_in_neo (fun q => !(q == nodeQueryOf ⟨"A", "P", []⟩))
        ⟨[⟨"A", "P", []⟩, ⟨"B", "P", []⟩], []⟩).txs).flatten := by
  refine ⟨by decide, by decide, by decide, by decide⟩

/-- C1 amended: `store_in_neo` bundles all node upserts into one write
transaction and all edge upserts into a second; when an upsert fails, the
failing statement is the last one attempted in its transaction (everything
before it succeeded, everything after it is skipped) and the pass reports
the raise instead of collecting it; the edge transaction exists only when
the whole node transaction succeeded. -/
theorem store_in_neo_bundled_abort (g : NeoGraph) (env : String → Bool) :
    ∃ nt, nt <+: nodeQueries g ∧
      (((store_in_neo env g).txs = [nt] ∧ (store_in_neo env g).ok = false ∧
          ∃ pre q, nt = pre ++ [q] ∧ (∀ p ∈ pre, env p = true) ∧
            env q = false) ∨
        (nt = nodeQueries g ∧
          ∃ et, (store_in_neo env g).txs = [nt, et] ∧
            (store_in_neo env g).ok = (runEdgesTx env g g.edges).2)) := by
  by_cases hok : (runTx env (nodeQueries g)).2 = true
  · refine ⟨nodeQueries g, ⟨[], by simp⟩,
      Or.inr ⟨rfl, (runEdgesTx env g g.edges).1, ?_, ?_⟩⟩
    · simp [store_in_neo, hok, runTx_ok_full env _ hok]
    · simp [store_in_neo, hok]
  · have hf : (runTx env (nodeQueries g)).2 = false := by simpa using hok
    obtain ⟨pre, q, h1, h2, h3⟩ := runTx_fail_shape env (nodeQueries g) hf
    refine ⟨(runTx env (nodeQueries g)).1, ?_,
      Or.inl ⟨by simp [store_in_neo, hok], by simp [store_in_neo, hok],
        pre, q, h1, h2, h3⟩⟩
    obtain ⟨r, hr⟩ := runTx_fst_append env (nodeQueries g)
    exact ⟨r, hr⟩

/-- C8: `create_constraint` raises `ValueError` exactly when the target
argument is outside node, relationship, or the kind argument is outside
unique, exist; when it raises, no session is opened and no statement is
run. -/
theorem create_constraint_invalid_args (label prop onArg ctype : String) :
    ((create_constraint label prop onArg ctype).error ≠ none ↔
      (¬(onArg = "node" ∨ onArg = "relationship") ∨
        ¬(ctype = "unique" ∨ ctype = "exist"))) ∧
    ((create_constraint label prop onArg ctype).error ≠ none →
      (create_constraint label prop onArg ctype).sessionOpened = false ∧
      (create_constraint label prop onArg ctype).queries = []) := by
  by_cases h1 : onArg = "node" <;> by_cases h2 : onArg = "relationship" <;>
    by_cases h3 : ctype = "unique" <;> by_cases h4 : ctype = "exist" <;>
      simp_all [create_constraint]

/-- C9: every statement issued by `create_constraint` is a
create-constraint-if-not-exists statement named by combining the sanitized
label, the target kind, and the sanitized property (a deterministic function
of exactly those inputs), and the name depends on each of them. -/
theorem create_constraint_named_if_not_exists
    (label prop onArg ctype : String)
    (h1 : onArg = "node" ∨ onArg = "relationship")
    (h2 : ctype = "unique" ∨ ctype = "exist") :
    (∃ pattern requirement,
      (create_constraint label prop onArg ctype).queries =
        ["CREATE CONSTRAINT " ++
          constraintName (sanitizeStr label) onArg (sanitizeStr prop) ++
          " IF NOT EXISTS\n" ++ "FOR " ++ pattern ++ "\n" ++
          "REQUIRE x." ++ sanitizeStr prop ++ " " ++ requirement]) ∧
    constraintName "Person" "node" "name" ≠ constraintName "Movie" "node" "name" ∧
    constraintName "Person" "node" "name" ≠ constraintName "Person" "relationship" "name" ∧
    constraintName "Person" "node" "name" ≠ constraintName "Person" "node" "age" := by
  refine ⟨?_, by decide, by decide, by decide⟩
  have hm : ("_unique" : String) ++ " IF NOT EXISTS\n" = "_unique IF NOT EXISTS\n" := by
    decide
  rcases h1 with h1 | h1 <;> rcases h2 with h2 | h2 <;> subst h1 <;> subst h2
  · refine ⟨"(x:" ++ sanitizeStr label ++ ")", "IS UNIQUE", ?_⟩
    simp [create_constraint, constraintQuery, constraintName, ← hm,
      String.append_assoc]
  · refine ⟨"(x:" ++ sanitizeStr label ++ ")", "IS NOT NULL", ?_⟩
    simp [create_constraint, constraintQuery, constraintName, ← hm,
      String.append_assoc]
  · refine ⟨"()-[x:" ++ sanitizeStr label ++ "]-()", "IS UNIQUE", ?_⟩
    simp [create_constraint, constraintQuery, constraintName, ← hm,
      String.append_assoc]
  · refine ⟨"()-[x:" ++ sanitizeStr label ++ "]-()", "IS NOT NULL", ?_⟩
    simp [create_constraint, constraintQuery, constraintName, ← hm,
      String.append_assoc]

/-- Witness for C9 at the concrete constraint `Person{name}` on nodes,
with the issued statement evaluated in full. -/
theorem create_constraint_named_witness :
    (∃ pattern requirement,
      (create_constraint "Person" "name" "node" "unique").queries =
        ["CREATE CONSTRAINT " ++
          constraintName (sanitizeStr "Person") "node" (sanitizeStr "name") ++
          " IF NOT EXISTS\n" ++ "FOR " ++ pattern ++ "\n" ++
          "REQUIRE x." ++ sanitizeStr "name" ++ " " ++ requirement]) ∧
    (create_constraint "Person" "name" "node" "unique").queries =
      ["CREATE CONSTRAINT Person_node_name_unique IF NOT EXISTS\nFOR (x:Person)\nREQUIRE x.name IS UNIQUE"] := by
  constructor
  · exact (create_constraint_named_if_not_exists "Person" "name" "node" "unique"
      (Or.inl rfl) (Or.inl rfl)).1
  · decide

/-- Witness for C8 at a concrete invalid target argument `edge`: the call
errors, opens no session and runs no statement. -/
theorem create_constraint_invalid_args_witness :
    (create_constraint "Person" "name" "edge" "unique").error ≠ none ∧
    (create_constraint "Person" "name" "edge" "unique").sessionOpened = false ∧
    (create_constraint "Person" "name" "edge" "unique").queries = [] := by
  have he : (create_constraint "Person" "name" "edge" "unique").error ≠ none := by
    decide
  obtain ⟨hs, hq⟩ := (create_constraint_invalid_args "Person" "name" "edge" "unique").2 he
  exact ⟨he, hs, hq⟩
